import Mathlib

/-!
Verification development for a minimal HTTP CONNECT proxy
(`trio_http_proxy.py`).

The program is shallowly embedded:
* bytes are `List Nat` (each entry one byte value);
* a network stream is modelled by its read script: the list of byte
  chunks that successive `receive_some` calls return (an empty chunk is
  a clean end-of-stream);
* Python's `bytes.split(maxsplit=2)`, `bytes.partition(b':')` and
  `int(...)` are embedded as executable functions (`pysplit`,
  `partitionColon`, `pyInt`).  `pyInt` covers the ASCII grammar that
  `int` accepts on the decoded port substring (optional sign, decimal
  digits, single underscores between digits); non-ASCII numerals are
  outside the modelled byte range;
* each `assert`/conversion failure in the parser is a distinct
  `ParseErr` value, and exceptions are `Except` errors;
* the per-connection supervisor `http_proxy` and the relay nursery are
  embedded further below as an event-trace function and a small-step
  system.
-/

/-- Bytes are lists of byte values. -/
abbrev Bytes := List Nat

/-- `BUFMAXLEN = 16384`, the bound passed to every `receive_some` call. -/
def BUFMAXLEN : Nat := 16384

/-- `OK_CONNECT_PORTS = {443, 8443}`, the destination-port allow-list. -/
def OK_CONNECT_PORTS : List Int := [443, 8443]

/-- The byte string `b"CONNECT"`. -/
def CONNECTB : Bytes := [67, 79, 78, 78, 69, 67, 84]

/-- The byte string `b"HTTP/1.1"`. -/
def HTTP11B : Bytes := [72, 84, 84, 80, 47, 49, 46, 49]

/-- The request terminator `b"\r\n\r\n"`. -/
def CRLFCRLF : Bytes := [13, 10, 13, 10]

/-- ASCII bytes of a Lean string literal (used only to write concrete
requests readably; all test bytes are ASCII). -/
def strBytes (s : String) : Bytes := s.toList.map Char.toNat

/-- ASCII whitespace, the separator set of Python's `bytes.split()`:
tab, LF, VT, FF, CR, space. -/
def isWS (b : Nat) : Bool :=
  b == 9 || b == 10 || b == 11 || b == 12 || b == 13 || b == 32

/-- Drop leading ASCII whitespace. -/
def dropWS : Bytes → Bytes
  | [] => []
  | b :: r => if isWS b then dropWS r else b :: r

/-- Split off the leading run of non-whitespace bytes: `(token, rest)`. -/
def takeTok : Bytes → Bytes × Bytes
  | [] => ([], [])
  | b :: r =>
    if isWS b then ([], b :: r)
    else
      let p := takeTok r
      (b :: p.1, p.2)

/-- Python's `bytes.split(maxsplit := m)` with the default whitespace
separator: runs of whitespace separate tokens, no empty tokens at the
ends, and once `m` splits have happened the remainder (with its leading
whitespace stripped) is the final element. -/
def pysplit : Nat → Bytes → List Bytes
  | 0, s =>
    match dropWS s with
    | [] => []
    | b :: r => [b :: r]
  | m + 1, s =>
    match dropWS s with
    | [] => []
    | b :: r =>
      let p := takeTok (b :: r)
      p.1 :: pysplit m p.2

/-- Python's `bytes.partition(b':')`: split at the first colon,
returning `(before, found, after)`. -/
def partitionColon : Bytes → Bytes × Bool × Bytes
  | [] => ([], false, [])
  | b :: r =>
    if b == 58 then ([], true, r)
    else
      let p := partitionColon r
      (b :: p.1, p.2.1, p.2.2)

/-- ASCII decimal digit. -/
def isDigit (b : Nat) : Bool := 48 ≤ b && b ≤ 57

/-- Numeric value of an ASCII digit byte. -/
def digitVal (b : Nat) : Nat := b - 48

/-- Digits of a Python integer literal after the first digit: decimal
digits with single underscores allowed only between digits.  The flag
records whether the previous byte was a digit. -/
def pyDigitsAux : Bool → Nat → Bytes → Option Nat
  | lastDigit, acc, [] => if lastDigit then some acc else none
  | lastDigit, acc, b :: r =>
    if isDigit b then pyDigitsAux true (10 * acc + digitVal b) r
    else if b == 95 && lastDigit then pyDigitsAux false acc r
    else none

/-- A nonempty Python digit string (first byte must be a digit). -/
def pyDigits : Bytes → Option Nat
  | [] => none
  | b :: r => if isDigit b then pyDigitsAux true (digitVal b) r else none

/-- Python's `int(s)` on the (ASCII) decoded port substring: optional
`+`/`-` sign followed by a digit string; anything else raises, which the
model renders as `none`. -/
def pyInt : Bytes → Option Int
  | [] => none
  | b :: r =>
    if b = 43 then (pyDigits r).map (fun n : Nat => (n : Int))
    else if b = 45 then (pyDigits r).map (fun n : Nat => -(n : Int))
    else (pyDigits (b :: r)).map (fun n : Nat => (n : Int))

/-- `bytes.endswith(suffix)`. -/
def endswith (s suffix : Bytes) : Bool :=
  decide (suffix.length ≤ s.length) &&
    s.drop (s.length - suffix.length) == suffix

/-- The distinct failure modes of `process_as_http_connect_request`,
one per `assert`/conversion in the source. -/
inductive ParseErr
  /-- line 79: the single read did not end with `\r\n\r\n`. -/
  | noTerminator
  /-- line 85: `split(maxsplit=2)` did not yield three tokens. -/
  | badTokenCount
  /-- line 87: method token differs from `CONNECT`. -/
  | wrongMethod
  /-- line 89: authority has no colon, or an empty port substring. -/
  | badAuthority
  /-- line 90: `int()` failed on the port substring. -/
  | badPort
  /-- line 91: parsed port not in `OK_CONNECT_PORTS`. -/
  | forbiddenPort
deriving DecidableEq, Repr

deriving instance DecidableEq for Except

/-- Lines 88-91 of the source: split the authority at the first colon,
require the colon and a nonempty port substring, convert the port with
`int`, and check the allow-list. -/
def parseAuthority (authority : Bytes) : Except ParseErr (Bytes × Int) :=
  let p := partitionColon authority
  if p.2.1 = true ∧ p.2.2 ≠ [] then
    match pyInt p.2.2 with
    | none => .error .badPort
    | some port =>
      if port ∈ OK_CONNECT_PORTS then .ok (p.1, port)
      else .error .forbiddenPort
  else .error .badAuthority

/-- Lines 78-92 of the source, applied to the bytes returned by the one
`receive_some(bufmaxlen)` call: check the terminator, split into at most
three whitespace-delimited tokens, require exactly three, require the
`CONNECT` method, then parse the authority. -/
def process_as_http_connect_request (bytes_read : Bytes) :
    Except ParseErr (Bytes × Int) :=
  if endswith bytes_read CRLFCRLF = true then
    match pysplit 2 bytes_read with
    | [method, authority, _] =>
      if method = CONNECTB then parseAuthority authority
      else .error .wrongMethod
    | _ => .error .badTokenCount
  else .error .noTerminator

/-- The one `receive_some(BUFMAXLEN)` call of the parser, on a stream
modelled by its read script: the first scripted chunk, truncated to
`BUFMAXLEN` bytes (an empty script means the peer already closed, so the
read returns no bytes). -/
def receive_some (script : List Bytes) : Bytes :=
  (script.headD []).take BUFMAXLEN

/-- The parser as called on a stream: a single bounded read followed by
`process_as_http_connect_request`. -/
def parseConnectRequest (script : List Bytes) : Except ParseErr (Bytes × Int) :=
  process_as_http_connect_request (receive_some script)

/-- A well-formed request line `CONNECT <host>:<portB> HTTP/1.1\r\n\r\n`. -/
def mkConnectRequest (host portB : Bytes) : Bytes :=
  CONNECTB ++ 32 :: host ++ 58 :: portB ++ 32 :: HTTP11B ++ CRLFCRLF

example : strBytes "CONNECT example.com:443 HTTP/1.1\r\n\r\n" =
    mkConnectRequest (strBytes "example.com") (strBytes "443") := by decide

example : parseConnectRequest [strBytes "CONNECT example.com:443 HTTP/1.1\r\n\r\n"] =
    .ok (strBytes "example.com", 443) := by decide

example : parseConnectRequest [strBytes "GET / HTTP/1.1\r\n\r\n"] =
    .error .wrongMethod := by decide

example : parseConnectRequest [strBytes "CONNECT example.com:80 HTTP/1.1\r\n\r\n"] =
    .error .forbiddenPort := by decide

example : parseConnectRequest [strBytes "CONNECT example.com:443\r\n\r\n"] =
    .error .badTokenCount := by decide

example : parseConnectRequest [strBytes "CONNECT example.com 443 HTTP/1.1\r\n\r\n"] =
    .error .badAuthority := by decide

example : parseConnectRequest
    [strBytes "CONNECT example.com:443 HT", strBytes "TP/1.1\r\n\r\n"] =
    .error .noTerminator := by decide

/-- Lines 95-100 of the source (`read_all`): the chunks the generator
yields, given the read script of its source stream.  A scripted empty
read is a clean end-of-stream and stops the generator; an exhausted
script models a read that never returns, so nothing further is
yielded. -/
def read_all : List Bytes → List Bytes
  | [] => []
  | c :: r => if c = [] then [] else c :: read_all r

/-- Whether the `read_all` loop terminates cleanly, i.e. the script
actually delivers an empty read. -/
def readAllFinishes : List Bytes → Bool
  | [] => false
  | c :: r => if c = [] then true else readAllFinishes r

/-- Lines 103-108 of the source (`pipe`): each chunk yielded by
`read_all` is written verbatim, in order, to the sink stream.  The
value is the list of `send_all` payloads. -/
def pipeWrites (script : List Bytes) : List Bytes := read_all script

/-- Failures seen by the per-connection supervisor, one per raise site:
a parse assertion, `open_tcp_stream` failing, the 200-response
`send_all` failing, or a relay failure inside the nursery. -/
inductive Err
  | parse : ParseErr → Err
  | connectFailed
  | sendFailed
  | relayFailed
deriving DecidableEq, Repr

/-- Observable events of one `http_proxy` call, in order. -/
inductive Ev
  /-- `open_tcp_stream(desthost, destport)` is invoked (line 62). -/
  | connectAttempt
  /-- `open_tcp_stream` returned a destination stream (line 62). -/
  | destOpened
  /-- the 200 response reached the client (line 67). -/
  | sent200
  /-- the destination stream is closed (exit of `async with dest_stream`, line 39). -/
  | destClosed
  /-- the client stream is closed (exit of `async with client_stream`, line 36). -/
  | clientClosed
  /-- the `except` handler logged a traceback (line 43). -/
  | loggedErr
deriving DecidableEq, Repr

/-- One connection's environment: the client's read script for the
parse phase, and whether each later fallible operation succeeds. -/
structure Env where
  clientScript : List Bytes
  connectOk : Bool
  send200Ok : Bool
  relayFails : Bool
deriving DecidableEq, Repr

/-- Lines 54-69 of the source (`tunnel`): parse the CONNECT request,
attempt the outbound connection, then send the 200 response.  Returns
the outcome together with the events emitted, in order.  Note that a
`send_all` failure raises out of `tunnel` with the destination stream
still open: the `async with dest_stream` on line 39 has not been
entered yet. -/
def tunnelRun (env : Env) : Except Err (Bytes × Int) × List Ev :=
  match parseConnectRequest env.clientScript with
  | .error e => (.error (.parse e), [])
  | .ok hp =>
    if env.connectOk then
      if env.send200Ok then (.ok hp, [.connectAttempt, .destOpened, .sent200])
      else (.error .sendFailed, [.connectAttempt, .destOpened])
    else (.error .connectFailed, [.connectAttempt])

/-- The body of the `try` on lines 37-41: run `tunnel`; on success run
the relay nursery under `async with dest_stream`, which closes the
destination stream when the nursery finishes, normally or not. -/
def tryBody (env : Env) : Except Err Unit × List Ev :=
  match tunnelRun env with
  | (.error e, evs) => (.error e, evs)
  | (.ok _, evs) =>
    if env.relayFails then (.error .relayFailed, evs ++ [.destClosed])
    else (.ok (), evs ++ [.destClosed])

/-- Lines 33-43 of the source (`http_proxy`): the whole body runs under
`async with client_stream`, and any `Exception` from the body is caught
and logged by the `except` on lines 42-43, so the handler itself
returns normally and the client stream is closed exactly once on
exit. -/
def http_proxy (env : Env) : Except Err Unit × List Ev :=
  match tryBody env with
  | (.ok _, evs) => (.ok (), evs ++ [.clientClosed])
  | (.error _, evs) => (.ok (), evs ++ [.loggedErr, .clientClosed])

/-- What one read of a relay source stream returns: a (nonempty) data
chunk, a clean end-of-stream, or an I/O error raised into the copy
loop. -/
inductive RdRes
  | chunk : Bytes → RdRes
  | eof
  | err
deriving DecidableEq, Repr

/-- State of one `pipe` task inside the nursery: still looping with the
rest of its read script, finished cleanly (saw end-of-stream), ended by
raising an exception, or killed by nursery cancellation. -/
inductive PipeSt
  | running : List RdRes → PipeSt
  | done
  | raised
  | cancelled
deriving DecidableEq, Repr

/-- State of the nursery on lines 39-41 plus the enclosing stream
closes: the two `pipe` tasks (`cd` copies client to destination, `dc`
copies destination to client) and whether each stream has been
closed. -/
structure Sys where
  cd : PipeSt
  dc : PipeSt
  destClosed : Bool
  clientClosed : Bool
deriving DecidableEq, Repr

/-- A pipe task that is no longer running (trio: the nursery can only
exit once every child has stopped). -/
def PipeSt.stopped : PipeSt → Bool
  | .running _ => false
  | _ => true

/-- Whether this task ended by raising. -/
def PipeSt.isRaised : PipeSt → Bool
  | .raised => true
  | _ => false

/-- Trio nursery semantics: an exception in either child cancels the
nursery's scope, so the sibling receives `Cancelled` at its next
checkpoint.  A child merely finishing cleanly cancels nothing. -/
def cancelRequested (s : Sys) : Bool := s.cd.isRaised || s.dc.isRaised

/-- One scheduling step of a single `pipe` task.  Under a requested
cancellation the next checkpoint (any read or write, including a
blocked one being aborted) raises `Cancelled`.  Otherwise the task
consumes its next read result: forward a chunk and keep looping, stop
cleanly on end-of-stream, or raise on an I/O error.  A task whose
script is exhausted is blocked in `receive_some` and cannot step. -/
def pipeNext (cancel : Bool) : PipeSt → Option PipeSt
  | .running script =>
    if cancel then some .cancelled
    else
      match script with
      | [] => none
      | .chunk _ :: r => some (.running r)
      | .eof :: _ => some .done
      | .err :: _ => some .raised
  | _ => none

/-- Successor states of the relay system: either pipe task takes a
step, or — once both tasks have stopped — the nursery exits and the
supervisor's `async with` blocks close the destination and client
streams. -/
def nexts (s : Sys) : List Sys :=
  (match pipeNext (cancelRequested s) s.cd with
   | some p => [{ s with cd := p }]
   | none => []) ++
  (match pipeNext (cancelRequested s) s.dc with
   | some p => [{ s with dc := p }]
   | none => []) ++
  (if s.cd.stopped && s.dc.stopped && !s.destClosed then
    [{ s with destClosed := true, clientClosed := true }]
   else [])

/-- One scheduling step. -/
def Step (s t : Sys) : Prop := t ∈ nexts s

/-- Reachability under arbitrary interleaving. -/
def Reach (s t : Sys) : Prop := Relation.ReflTransGen Step s t

/-- Initial relay state for given read scripts of the client (for the
client-to-destination pipe) and of the destination (for the
destination-to-client pipe). -/
def sys0 (cdScript dcScript : List RdRes) : Sys :=
  ⟨.running cdScript, .running dcScript, false, false⟩

/-- Every state reachable from a member of an invariant list that is
closed under `nexts` stays in the list. -/
theorem reach_invariant (inv : List Sys) (a : Sys) (h0 : a ∈ inv)
    (hstep : ∀ s ∈ inv, ∀ t ∈ nexts s, t ∈ inv) :
    ∀ s, Reach a s → s ∈ inv := by
  intro s h
  induction h with
  | refl => exact h0
  | tail _ h2 ih => exact hstep _ ih _ h2

/-! Tokenization lemmas for `pysplit` / `partitionColon` / `pyInt`. -/

theorem dropWS_cons_of_not_ws {b : Nat} (r : Bytes) (h : isWS b = false) :
    dropWS (b :: r) = b :: r := by
  simp [dropWS, h]

theorem dropWS_cons_of_ws {b : Nat} (r : Bytes) (h : isWS b = true) :
    dropWS (b :: r) = dropWS r := by
  simp [dropWS, h]

theorem takeTok_append {tok : Bytes} {c : Nat} (r : Bytes)
    (htok : ∀ b ∈ tok, isWS b = false) (hc : isWS c = true) :
    takeTok (tok ++ c :: r) = (tok, c :: r) := by
  induction tok with
  | nil => simp [takeTok, hc]
  | cons b t ih =>
    have hb : isWS b = false := htok b (List.mem_cons_self b t)
    have ht : ∀ x ∈ t, isWS x = false := fun x hx => htok x (List.mem_cons_of_mem b hx)
    simp [takeTok, hb, ih ht]

theorem pysplit_congr_dropWS (m : Nat) {s s' : Bytes} (h : dropWS s = dropWS s') :
    pysplit m s = pysplit m s' := by
  cases m <;> simp only [pysplit, h]

theorem pysplit_token {tok : Bytes} {c : Nat} (m : Nat) (r : Bytes)
    (hne : tok ≠ []) (htok : ∀ b ∈ tok, isWS b = false) (hc : isWS c = true) :
    pysplit (m + 1) (tok ++ c :: r) = tok :: pysplit m (c :: r) := by
  cases tok with
  | nil => exact absurd rfl hne
  | cons b t =>
    have hb : isWS b = false := htok b (List.mem_cons_self b t)
    have htk := takeTok_append r htok hc
    simp only [List.cons_append] at htk ⊢
    simp only [pysplit, dropWS_cons_of_not_ws _ hb, htk]

theorem pysplit_ws_cons (m : Nat) {c : Nat} (s : Bytes) (hc : isWS c = true) :
    pysplit m (c :: s) = pysplit m s := by
  exact pysplit_congr_dropWS m (dropWS_cons_of_ws s hc)

theorem endswith_append_self (x suffix : Bytes) :
    endswith (x ++ suffix) suffix = true := by
  unfold endswith
  rw [List.length_append, Nat.add_sub_cancel, List.drop_left]
  simp

theorem partitionColon_append {h : Bytes} (r : Bytes)
    (hh : ∀ b ∈ h, b ≠ 58) :
    partitionColon (h ++ 58 :: r) = (h, true, r) := by
  induction h with
  | nil => simp [partitionColon]
  | cons b t ih =>
    have hb : b ≠ 58 := hh b (List.mem_cons_self b t)
    have ht : ∀ x ∈ t, x ≠ 58 := fun x hx => hh x (List.mem_cons_of_mem b hx)
    simp [partitionColon, hb, ih ht]

theorem partitionColon_sound {s h r : Bytes}
    (heq : partitionColon s = (h, true, r)) :
    s = h ++ 58 :: r ∧ (58 : Nat) ∉ h := by
  induction s generalizing h with
  | nil => simp [partitionColon] at heq
  | cons b t ih =>
    by_cases hb : b = 58
    · subst hb
      simp [partitionColon] at heq
      obtain ⟨rfl, rfl⟩ := heq
      simp
    · have hbb : (b == 58) = false := by simp [hb]
      simp only [partitionColon, hbb, Bool.false_eq_true, if_false] at heq
      rw [Prod.ext_iff] at heq
      obtain ⟨h1, h23⟩ := heq
      rw [Prod.ext_iff] at h23
      obtain ⟨h2, h3⟩ := h23
      have ht : partitionColon t = ((partitionColon t).1, true, r) := by
        rw [Prod.ext_iff]
        refine ⟨rfl, ?_⟩
        rw [Prod.ext_iff]
        exact ⟨h2, h3⟩
      obtain ⟨hteq, hnot⟩ := ih ht
      subst h1
      refine ⟨by rw [List.cons_append, ← hteq], ?_⟩
      intro hmem
      rcases List.mem_cons.mp hmem with h58 | h58
      · exact hb h58.symm
      · exact hnot h58

theorem pyDigitsAux_cons (flag : Bool) (acc c : Nat) (t : Bytes) :
    pyDigitsAux flag acc (c :: t) =
      if isDigit c then pyDigitsAux true (10 * acc + digitVal c) t
      else if c == 95 && flag then pyDigitsAux false acc t
      else none := rfl

theorem pyDigitsAux_mem {r : Bytes} :
    ∀ {flag : Bool} {acc n : Nat}, pyDigitsAux flag acc r = some n →
      ∀ b ∈ r, isDigit b = true ∨ b = 95 := by
  induction r with
  | nil =>
    intro flag acc n _ b hb
    simp at hb
  | cons c t ih =>
    intro flag acc n h b hb
    rw [pyDigitsAux_cons] at h
    by_cases hc : isDigit c
    · rw [if_pos hc] at h
      rcases List.mem_cons.mp hb with rfl | hbt
      · exact Or.inl hc
      · exact ih h b hbt
    · rw [if_neg hc] at h
      by_cases h95 : (c == 95 && flag) = true
      · rw [if_pos h95] at h
        rcases List.mem_cons.mp hb with rfl | hbt
        · exact Or.inr (by simpa using (Bool.and_elim_left h95))
        · exact ih h b hbt
      · rw [if_neg h95] at h
        exact absurd h (by simp)

theorem pyDigits_mem {s : Bytes} {n : Nat} (h : pyDigits s = some n) :
    ∀ b ∈ s, isDigit b = true ∨ b = 95 := by
  cases s with
  | nil => intro b hb; simp at hb
  | cons c t =>
    intro b hb
    by_cases hc : isDigit c
    · rw [show pyDigits (c :: t) = pyDigitsAux true (digitVal c) t from by
        simp [pyDigits, hc]] at h
      rcases List.mem_cons.mp hb with rfl | hbt
      · exact Or.inl hc
      · exact pyDigitsAux_mem h b hbt
    · rw [show pyDigits (c :: t) = none from by simp [pyDigits, hc]] at h
      exact absurd h (by simp)

theorem pyInt_mem {s : Bytes} {p : Int} (h : pyInt s = some p) :
    ∀ b ∈ s, isDigit b = true ∨ b = 95 ∨ b = 43 ∨ b = 45 := by
  cases s with
  | nil => intro b hb; simp at hb
  | cons c t =>
    intro b hb
    by_cases h43 : c = 43
    · subst h43
      rw [show pyInt (43 :: t) = (pyDigits t).map (fun n : Nat => (n : Int)) from rfl] at h
      obtain ⟨n, hn, -⟩ := Option.map_eq_some'.mp h
      rcases List.mem_cons.mp hb with rfl | hbt
      · exact Or.inr (Or.inr (Or.inl rfl))
      · rcases pyDigits_mem hn b hbt with hd | h95
        · exact Or.inl hd
        · exact Or.inr (Or.inl h95)
    · by_cases h45 : c = 45
      · subst h45
        rw [show pyInt (45 :: t) = (pyDigits t).map (fun n : Nat => -(n : Int)) from rfl] at h
        obtain ⟨n, hn, -⟩ := Option.map_eq_some'.mp h
        rcases List.mem_cons.mp hb with rfl | hbt
        · exact Or.inr (Or.inr (Or.inr rfl))
        · rcases pyDigits_mem hn b hbt with hd | h95
          · exact Or.inl hd
          · exact Or.inr (Or.inl h95)
      · rw [show pyInt (c :: t) = (pyDigits (c :: t)).map (fun n : Nat => (n : Int)) from by
          simp [pyInt, h43, h45]] at h
        obtain ⟨n, hn, -⟩ := Option.map_eq_some'.mp h
        rcases pyDigits_mem hn b hb with hd | h95
        · exact Or.inl hd
        · exact Or.inr (Or.inl h95)

theorem pyInt_ne_nil {s : Bytes} {p : Int} (h : pyInt s = some p) : s ≠ [] := by
  cases s with
  | nil => exact absurd h (by simp [pyInt])
  | cons c t => simp

theorem digit_not_ws {b : Nat} (h : isDigit b = true) : isWS b = false := by
  simp only [isDigit, Bool.and_eq_true, decide_eq_true_eq] at h
  simp only [isWS, Bool.or_eq_false_iff, beq_eq_false_iff_ne]
  omega

theorem pyInt_byte_not_ws {s : Bytes} {p : Int} (h : pyInt s = some p) :
    ∀ b ∈ s, isWS b = false := by
  intro b hb
  rcases pyInt_mem h b hb with hd | rfl | rfl | rfl
  · exact digit_not_ws hd
  · rfl
  · rfl
  · rfl

theorem pyInt_byte_ne_colon {s : Bytes} {p : Int} (h : pyInt s = some p) :
    ∀ b ∈ s, b ≠ 58 := by
  intro b hb
  rcases pyInt_mem h b hb with hd | rfl | rfl | rfl
  · intro h58
    rw [h58] at hd
    exact absurd hd (by decide)
  · decide
  · decide
  · decide

theorem partitionColon_no_colon {s : Bytes} (h : (58 : Nat) ∉ s) :
    partitionColon s = (s, false, []) := by
  induction s with
  | nil => rfl
  | cons b t ih =>
    have hb : b ≠ 58 := fun e => h (e ▸ List.mem_cons_self b t)
    have ht : (58 : Nat) ∉ t := fun m => h (List.mem_cons_of_mem b m)
    simp [partitionColon, hb, ih ht]

/-- The substring of `s` after the last colon (what the spec says the
port is parsed from). -/
def afterLastColon (s : Bytes) : Bytes :=
  (s.reverse.takeWhile (fun b => b != 58)).reverse

theorem takeWhile_append_stop {P : Nat → Bool} {l : Bytes} {x : Nat} (r : Bytes)
    (hl : ∀ b ∈ l, P b = true) (hx : P x = false) :
    (l ++ x :: r).takeWhile P = l := by
  induction l with
  | nil => simp [List.takeWhile_cons, hx]
  | cons b t ih =>
    have hb : P b = true := hl b (List.mem_cons_self b t)
    have ht : ∀ y ∈ t, P y = true := fun y hy => hl y (List.mem_cons_of_mem b hy)
    simp [List.takeWhile_cons, hb, ih ht]

theorem afterLastColon_append {h r : Bytes} (hr : (58 : Nat) ∉ r) :
    afterLastColon (h ++ 58 :: r) = r := by
  unfold afterLastColon
  rw [List.reverse_append, List.reverse_cons, List.append_assoc,
    List.singleton_append,
    takeWhile_append_stop _ ?_ ?_, List.reverse_reverse]
  · intro b hb
    have : b ≠ 58 := fun e => hr (e ▸ List.mem_reverse.mp hb)
    simp [this]
  · decide

theorem ok_port_pos {p : Int} (h : p ∈ OK_CONNECT_PORTS) : 0 < p := by
  simp only [OK_CONNECT_PORTS, List.mem_cons, List.mem_singleton] at h
  rcases h with rfl | rfl | h
  · decide
  · decide
  · simp at h

theorem parseAuthority_ok {authority host : Bytes} {p : Int}
    (h : parseAuthority authority = .ok (host, p)) :
    ∃ rest, partitionColon authority = (host, true, rest) ∧
      pyInt rest = some p ∧ p ∈ OK_CONNECT_PORTS := by
  simp only [parseAuthority] at h
  split at h
  · rename_i hcond
    split at h
    · exact absurd h (by simp)
    · rename_i port hpi
      split at h
      · rename_i hmem
        rw [Except.ok.injEq, Prod.ext_iff] at h
        obtain ⟨h1, h2⟩ := h
        dsimp only at h1 h2
        refine ⟨(partitionColon authority).2.2, ?_, ?_, ?_⟩
        · rw [Prod.ext_iff]
          refine ⟨h1, ?_⟩
          rw [Prod.ext_iff]
          exact ⟨hcond.1, rfl⟩
        · rw [hpi, h2]
        · rw [← h2]; exact hmem
      · exact absurd h (by simp)
  · exact absurd h (by simp)

theorem parseAuthority_ok_intro {host portB : Bytes} {p : Int}
    (hhc : ∀ b ∈ host, b ≠ 58) (hpi : pyInt portB = some p)
    (hmem : p ∈ OK_CONNECT_PORTS) :
    parseAuthority (host ++ 58 :: portB) = .ok (host, p) := by
  have hne : portB ≠ [] := pyInt_ne_nil hpi
  simp [parseAuthority, partitionColon_append portB hhc, hpi, hne, hmem]

/-- Claim C5: whenever the authority parse of a CONNECT request
succeeds, the authority contains exactly one colon, and the returned
port is the positive integer parsed from the substring after the last
colon; an authority with no colon, or with a colon but an empty port
substring, is the `badAuthority` parse error. -/
theorem claim5_theorem :
    (∀ (authority host : Bytes) (p : Int),
      parseAuthority authority = .ok (host, p) →
      authority.count 58 = 1 ∧
      pyInt (afterLastColon authority) = some p ∧ 0 < p) ∧
    (∀ authority : Bytes, (58 : Nat) ∉ authority →
      parseAuthority authority = .error .badAuthority) ∧
    (∀ h : Bytes, (58 : Nat) ∉ h →
      parseAuthority (h ++ [58]) = .error .badAuthority) := by
  refine ⟨?_, ?_, ?_⟩
  · intro authority host p h
    obtain ⟨rest, hpart, hpi, hmem⟩ := parseAuthority_ok h
    obtain ⟨heq, hnot⟩ := partitionColon_sound hpart
    have hrestnc : (58 : Nat) ∉ rest :=
      fun hm => (pyInt_byte_ne_colon hpi 58 hm) rfl
    refine ⟨?_, ?_, ok_port_pos hmem⟩
    · rw [heq, List.count_append, List.count_cons_self,
        List.count_eq_zero.mpr hnot, List.count_eq_zero.mpr hrestnc]
    · rw [heq, afterLastColon_append hrestnc]
      exact hpi
  · intro authority hnc
    simp only [parseAuthority, partitionColon_no_colon hnc]
    simp
  · intro h hnc
    have hh : ∀ b ∈ h, b ≠ 58 := fun b hb e => hnc (e ▸ hb)
    simp only [show h ++ [58] = h ++ 58 :: [] from rfl,
      parseAuthority, partitionColon_append [] hh]
    simp

/-- Witness for C5 at the authority `h:443`. -/
theorem claim5_witness :
    ([104, 58, 52, 52, 51] : Bytes).count 58 = 1 ∧
    pyInt (afterLastColon [104, 58, 52, 52, 51]) = some 443 ∧ (0 : Int) < 443 :=
  claim5_theorem.1 [104, 58, 52, 52, 51] [104] 443 (by decide)

/-- Claim C10: a request whose line has only two whitespace-delimited
tokens before the terminator — a well-formed method and authority but
no HTTP-version token — is rejected with the token-count parse error,
not parsed to a host/port. -/
theorem claim10_theorem (authority : Bytes) (hne : authority ≠ [])
    (hnws : ∀ b ∈ authority, isWS b = false) :
    process_as_http_connect_request (CONNECTB ++ 32 :: authority ++ CRLFCRLF) =
      .error .badTokenCount := by
  have hshape : CONNECTB ++ 32 :: authority ++ CRLFCRLF =
      CONNECTB ++ 32 :: (authority ++ CRLFCRLF) := by
    simp [List.append_assoc]
  have hterm : endswith (CONNECTB ++ 32 :: authority ++ CRLFCRLF) CRLFCRLF = true := by
    have h2 : CONNECTB ++ 32 :: authority ++ CRLFCRLF =
        (CONNECTB ++ 32 :: authority) ++ CRLFCRLF := by
      simp [List.append_assoc]
    rw [h2]
    exact endswith_append_self _ _
  have hsplit : pysplit 2 (CONNECTB ++ 32 :: authority ++ CRLFCRLF) =
      [CONNECTB, authority] := by
    rw [hshape,
      pysplit_token 1 (authority ++ CRLFCRLF) (by decide) (by decide) (by decide),
      pysplit_ws_cons 1 (authority ++ CRLFCRLF) (by decide),
      show CRLFCRLF = 13 :: [10, 13, 10] from rfl,
      pysplit_token 0 [10, 13, 10] hne hnws (by decide),
      show pysplit 0 (13 :: [10, 13, 10]) = [] from by decide]
  unfold process_as_http_connect_request
  rw [if_pos hterm, hsplit]

/-- Witness for C10 at the request `CONNECT example.com:443\r\n\r\n`. -/
theorem claim10_witness :
    process_as_http_connect_request
      (CONNECTB ++ 32 :: strBytes "example.com:443" ++ CRLFCRLF) =
      .error .badTokenCount :=
  claim10_theorem (strBytes "example.com:443") (by decide) (by decide)

/-- Claim C2 as stated is false on the code: the parser does a single
`receive_some`, not an incremental read loop.  The valid request
`CONNECT example.com:443 HTTP/1.1\r\n\r\n` parses to the host and port
when delivered whole, yet the very same bytes split across two reads
make the parser fail at the terminator assertion instead of yielding
`{host, port}`. -/
theorem claim2_counterexample :
    process_as_http_connect_request
      (strBytes "CONNECT example.com:443 HT" ++ strBytes "TP/1.1\r\n\r\n") =
      .ok (strBytes "example.com", 443) ∧
    parseConnectRequest
      [strBytes "CONNECT example.com:443 HT", strBytes "TP/1.1\r\n\r\n"] =
      .error .noTerminator := by
  constructor
  · decide
  · decide

/-- Claim C2 amended: the parser performs one bounded-size read; every
valid request `CONNECT host:port HTTP/1.1\r\n\r\n` that arrives whole
in that first read (and fits the `BUFMAXLEN` budget) parses to exactly
`{host, port}`, with no truncation at the trailing terminator. -/
theorem claim2_theorem (host portB : Bytes) (p : Int) (rest : List Bytes)
    (hws : ∀ b ∈ host, isWS b = false)
    (hhc : ∀ b ∈ host, b ≠ 58)
    (hpi : pyInt portB = some p)
    (hmem : p ∈ OK_CONNECT_PORTS)
    (hlen : (mkConnectRequest host portB).length ≤ BUFMAXLEN) :
    parseConnectRequest (mkConnectRequest host portB :: rest) = .ok (host, p) := by
  have hrecv : receive_some (mkConnectRequest host portB :: rest) =
      mkConnectRequest host portB := by
    unfold receive_some
    rw [List.headD_cons, List.take_of_length_le hlen]
  rw [parseConnectRequest, hrecv]
  have hterm : endswith (mkConnectRequest host portB) CRLFCRLF = true := by
    have h2 : mkConnectRequest host portB =
        (CONNECTB ++ 32 :: host ++ 58 :: portB ++ 32 :: HTTP11B) ++ CRLFCRLF := by
      simp [mkConnectRequest, List.append_assoc]
    rw [h2]
    exact endswith_append_self _ _
  have hpbws : ∀ b ∈ portB, isWS b = false := pyInt_byte_not_ws hpi
  have hauthws : ∀ b ∈ host ++ 58 :: portB, isWS b = false := by
    intro b hb
    rcases List.mem_append.mp hb with hh | ht
    · exact hws b hh
    · rcases List.mem_cons.mp ht with rfl | hp2
      · rfl
      · exact hpbws b hp2
  have hauthne : host ++ 58 :: portB ≠ [] := by simp
  have hshape : mkConnectRequest host portB =
      CONNECTB ++ 32 ::
        ((host ++ 58 :: portB) ++ 32 :: (HTTP11B ++ CRLFCRLF)) := by
    simp [mkConnectRequest, List.append_assoc]
  have hsplit : pysplit 2 (mkConnectRequest host portB) =
      [CONNECTB, host ++ 58 :: portB, HTTP11B ++ CRLFCRLF] := by
    rw [hshape,
      pysplit_token 1 _ (by decide) (by decide) (by decide),
      pysplit_ws_cons 1 _ (by decide),
      pysplit_token 0 (HTTP11B ++ CRLFCRLF) hauthne hauthws (by decide),
      show pysplit 0 (32 :: (HTTP11B ++ CRLFCRLF)) = [HTTP11B ++ CRLFCRLF] from by
        decide]
  unfold process_as_http_connect_request
  rw [if_pos hterm, hsplit]
  dsimp only
  rw [if_pos rfl]
  exact parseAuthority_ok_intro hhc hpi hmem

/-- Witness for the amended C2 at `CONNECT example.com:443 HTTP/1.1\r\n\r\n`. -/
theorem claim2_witness :
    parseConnectRequest [mkConnectRequest (strBytes "example.com") (strBytes "443")] =
      .ok (strBytes "example.com", 443) :=
  claim2_theorem (strBytes "example.com") (strBytes "443") 443 []
    (by decide) (by decide) (by decide) (by decide) (by decide)

theorem http_proxy_parse_error {env : Env} {e : ParseErr}
    (h : parseConnectRequest env.clientScript = .error e) :
    http_proxy env = (.ok (), [.loggedErr, .clientClosed]) := by
  unfold http_proxy tryBody tunnelRun
  rw [h]
  rfl

/-- Claim C8: a request line whose method token is not the literal
`CONNECT` fails the parse with the wrong-method error, the supervisor
logs it and closes the client stream, and no outbound connection is
ever attempted. -/
theorem claim8_theorem (env : Env) (method authority rest : Bytes)
    (hterm : endswith (receive_some env.clientScript) CRLFCRLF = true)
    (hsplit : pysplit 2 (receive_some env.clientScript) = [method, authority, rest])
    (hm : method ≠ CONNECTB) :
    parseConnectRequest env.clientScript = .error .wrongMethod ∧
    http_proxy env = (.ok (), [.loggedErr, .clientClosed]) ∧
    (http_proxy env).2.count .connectAttempt = 0 ∧
    (http_proxy env).2.count .destOpened = 0 ∧
    (http_proxy env).2.count .clientClosed = 1 := by
  have hparse : parseConnectRequest env.clientScript = .error .wrongMethod := by
    unfold parseConnectRequest process_as_http_connect_request
    rw [if_pos hterm, hsplit]
    dsimp only
    rw [if_neg hm]
  have hrun := http_proxy_parse_error hparse
  refine ⟨hparse, hrun, ?_, ?_, ?_⟩ <;> rw [hrun] <;> rfl

/-- Environment in which the client sends `GET / HTTP/1.1\r\n\r\n`. -/
def envGet : Env := ⟨[strBytes "GET / HTTP/1.1\r\n\r\n"], true, true, false⟩

/-- Witness for C8: the `GET` request of the spec's scenario B. -/
theorem claim8_witness :
    parseConnectRequest envGet.clientScript = .error .wrongMethod ∧
    http_proxy envGet = (.ok (), [.loggedErr, .clientClosed]) ∧
    (http_proxy envGet).2.count .connectAttempt = 0 ∧
    (http_proxy envGet).2.count .destOpened = 0 ∧
    (http_proxy envGet).2.count .clientClosed = 1 :=
  claim8_theorem envGet (strBytes "GET") (strBytes "/")
    (strBytes "HTTP/1.1\r\n\r\n") (by decide) (by decide) (by decide)

/-- Claim C9: a syntactically valid CONNECT whose port parses but lies
outside `OK_CONNECT_PORTS` fails with the dedicated forbidden-port
error (a constructor distinct from every other `ParseErr`), and no
outbound connection is attempted. -/
theorem claim9_theorem (env : Env) (host portB rest : Bytes) (p : Int)
    (hterm : endswith (receive_some env.clientScript) CRLFCRLF = true)
    (hsplit : pysplit 2 (receive_some env.clientScript) =
      [CONNECTB, host ++ 58 :: portB, rest])
    (hhc : ∀ b ∈ host, b ≠ 58)
    (hpi : pyInt portB = some p)
    (hmem : p ∉ OK_CONNECT_PORTS) :
    parseConnectRequest env.clientScript = .error .forbiddenPort ∧
    http_proxy env = (.ok (), [.loggedErr, .clientClosed]) ∧
    (http_proxy env).2.count .connectAttempt = 0 ∧
    (http_proxy env).2.count .clientClosed = 1 := by
  have hauth : parseAuthority (host ++ 58 :: portB) = .error .forbiddenPort := by
    have hne : portB ≠ [] := pyInt_ne_nil hpi
    simp [parseAuthority, partitionColon_append portB hhc, hpi, hne, hmem]
  have hparse : parseConnectRequest env.clientScript = .error .forbiddenPort := by
    unfold parseConnectRequest process_as_http_connect_request
    rw [if_pos hterm, hsplit]
    dsimp only
    rw [if_pos rfl]
    exact hauth
  have hrun := http_proxy_parse_error hparse
  refine ⟨hparse, hrun, ?_, ?_⟩ <;> rw [hrun] <;> rfl

/-- Environment in which the client asks to CONNECT to port 80. -/
def envPort80 : Env :=
  ⟨[strBytes "CONNECT example.com:80 HTTP/1.1\r\n\r\n"], true, true, false⟩

/-- Witness for C9: the port-80 request of the spec's scenario C. -/
theorem claim9_witness :
    parseConnectRequest envPort80.clientScript = .error .forbiddenPort ∧
    http_proxy envPort80 = (.ok (), [.loggedErr, .clientClosed]) ∧
    (http_proxy envPort80).2.count .connectAttempt = 0 ∧
    (http_proxy envPort80).2.count .clientClosed = 1 :=
  claim9_theorem envPort80 (strBytes "example.com") (strBytes "80")
    (strBytes "HTTP/1.1\r\n\r\n") 80 (by decide) (by decide) (by decide)
    (by decide) (by decide)

theorem tryBody_no_clientClosed (env : Env) :
    (tryBody env).2.count .clientClosed = 0 := by
  unfold tryBody tunnelRun
  cases parseConnectRequest env.clientScript <;> dsimp only <;>
    first
    | rfl
    | (split_ifs <;> rfl)

/-- Claim C4: on every exit path of the per-connection supervisor —
parse failure, establish failure, relay completion or relay fault —
the client stream is closed exactly once. -/
theorem claim4_theorem (env : Env) :
    (http_proxy env).2.count .clientClosed = 1 := by
  have h0 := tryBody_no_clientClosed env
  unfold http_proxy
  cases h : tryBody env with
  | mk r evs =>
    rw [h] at h0
    cases r <;> dsimp only <;> rw [List.count_append, h0] <;> rfl

/-- Witness for C4 at a successful tunnel environment. -/
theorem claim4_witness :
    (http_proxy ⟨[strBytes "CONNECT example.com:443 HTTP/1.1\r\n\r\n"],
      true, true, false⟩).2.count .clientClosed = 1 :=
  claim4_theorem _

/-- Environment where parse and outbound connect succeed but writing
the 200 response to the client fails. -/
def envSendFail : Env :=
  ⟨[strBytes "CONNECT example.com:443 HTTP/1.1\r\n\r\n"], true, false, false⟩

/-- Claim C3 as stated is false on the code: when the 200-response
write fails, `tunnel` raises before `async with dest_stream` is ever
entered, so the freshly opened destination stream is closed zero
times, not exactly once. -/
theorem claim3_counterexample :
    (http_proxy envSendFail).2.count .destOpened = 1 ∧
    (http_proxy envSendFail).2.count .destClosed = 0 := by
  constructor
  · decide
  · decide

/-- Claim C3 amended: on an establish-phase client-write failure the
destination stream is left open (closed zero times) — it is leaked to
garbage collection; the error is caught and logged at the supervisor
and only the client stream is closed (exactly once). -/
theorem claim3_theorem (env : Env) (host : Bytes) (p : Int)
    (hp : parseConnectRequest env.clientScript = .ok (host, p))
    (hc : env.connectOk = true) (hs : env.send200Ok = false) :
    http_proxy env =
      (.ok (), [.connectAttempt, .destOpened, .loggedErr, .clientClosed]) ∧
    (http_proxy env).2.count .destOpened = 1 ∧
    (http_proxy env).2.count .destClosed = 0 ∧
    (http_proxy env).2.count .clientClosed = 1 := by
  have hrun : http_proxy env =
      (.ok (), [.connectAttempt, .destOpened, .loggedErr, .clientClosed]) := by
    unfold http_proxy tryBody tunnelRun
    rw [hp, hc, hs]
    rfl
  refine ⟨hrun, ?_, ?_, ?_⟩ <;> rw [hrun] <;> rfl

/-- Witness for the amended C3 at `envSendFail`. -/
theorem claim3_witness :
    http_proxy envSendFail =
      (.ok (), [.connectAttempt, .destOpened, .loggedErr, .clientClosed]) ∧
    (http_proxy envSendFail).2.count .destOpened = 1 ∧
    (http_proxy envSendFail).2.count .destClosed = 0 ∧
    (http_proxy envSendFail).2.count .clientClosed = 1 :=
  claim3_theorem envSendFail (strBytes "example.com") 443
    (by decide) (by decide) (by decide)

/-- Claim C6: the per-connection entry point returns normally for every
environment; when the try-body failed (parse, establish or relay), the
failure was logged, and the last action is always closing the client
stream — a clean teardown, nothing propagates outward. -/
theorem claim6_theorem (env : Env) :
    (http_proxy env).1 = .ok () ∧
    ((tryBody env).1.isOk = false → Ev.loggedErr ∈ (http_proxy env).2) ∧
    (http_proxy env).2.getLast? = some .clientClosed := by
  unfold http_proxy
  cases h : tryBody env with
  | mk r evs =>
    cases r with
    | ok u =>
      dsimp only
      refine ⟨rfl, ?_, ?_⟩
      · intro hbad
        exact absurd hbad (by simp [Except.isOk, Except.toBool])
      · exact List.getLast?_concat _
    | error e =>
      dsimp only
      refine ⟨rfl, fun _ => ?_, ?_⟩
      · exact List.mem_append.mpr (Or.inr (by simp))
      · rw [show evs ++ [Ev.loggedErr, Ev.clientClosed] =
          (evs ++ [Ev.loggedErr]) ++ [Ev.clientClosed] from by simp]
        exact List.getLast?_concat _

/-- Witness for C6 at the failing environment `envSendFail`. -/
theorem claim6_witness :
    (http_proxy envSendFail).1 = .ok () ∧
    ((tryBody envSendFail).1.isOk = false →
      Ev.loggedErr ∈ (http_proxy envSendFail).2) ∧
    (http_proxy envSendFail).2.getLast? = some .clientClosed :=
  claim6_theorem envSendFail

theorem read_all_append_eof (chunks tail2 : List Bytes)
    (hne : ∀ c ∈ chunks, c ≠ []) :
    read_all (chunks ++ [] :: tail2) = chunks ∧
    readAllFinishes (chunks ++ [] :: tail2) = true := by
  induction chunks with
  | nil => simp [read_all, readAllFinishes]
  | cons c t ih =>
    have hc : c ≠ [] := hne c (List.mem_cons_self c t)
    have ht : ∀ x ∈ t, x ≠ [] := fun x hx => hne x (List.mem_cons_of_mem c hx)
    obtain ⟨h1, h2⟩ := ih ht
    simp [read_all, readAllFinishes, hc, h1, h2]

/-- Claim C7: one direction of an established relay forwards each read
chunk verbatim and in read order, so for any way of splitting the sent
bytes into nonempty chunks the concatenation delivered to the sink is
exactly the sent byte sequence; a zero-length read (clean end-of-stream)
ends the loop normally, ignoring anything scripted after it. -/
theorem claim7_theorem (data : Bytes) (chunks tail2 : List Bytes)
    (hne : ∀ c ∈ chunks, c ≠ []) (hdata : chunks.flatten = data) :
    pipeWrites (chunks ++ [] :: tail2) = chunks ∧
    (pipeWrites (chunks ++ [] :: tail2)).flatten = data ∧
    readAllFinishes (chunks ++ [] :: tail2) = true := by
  obtain ⟨h1, h2⟩ := read_all_append_eof chunks tail2 hne
  exact ⟨h1, by rw [pipeWrites, h1, hdata], h2⟩

/-- Witness for C7 on a 3-byte payload split as 2+1. -/
theorem claim7_witness :
    pipeWrites [[104, 105], [33], []] = [[104, 105], [33]] ∧
    (pipeWrites [[104, 105], [33], []]).flatten = [104, 105, 33] ∧
    readAllFinishes [[104, 105], [33], []] = true :=
  claim7_theorem [104, 105, 33] [[104, 105], [33]] [] (by decide) (by decide)

instance (s t : Sys) : Decidable (Step s t) :=
  inferInstanceAs (Decidable (t ∈ nexts s))

/-- Relay scenario: the destination closes immediately (clean
end-of-stream) while the client neither sends nor closes — its pipe
stays blocked in `receive_some`. -/
def sysSilent : Sys := sys0 [] [RdRes.eof]

/-- Relay scenario: the destination read raises an I/O error while the
client pipe is blocked in `receive_some`. -/
def sysDestErr : Sys := sys0 [] [RdRes.err]

/-- Relay scenario: the client sends one chunk and closes; the
destination closes immediately. -/
def sysBothEnd : Sys := sys0 [RdRes.chunk [97], RdRes.eof] [RdRes.eof]

/-- Claim C1 as stated is false on the code: with the destination at
immediate end-of-stream and a silent, still-open client, the
destination-to-client loop finishes cleanly but nothing ever cancels
the client-to-destination loop — `open_nursery` waits for both
children and only an exception cancels siblings.  No reachable state
of the relay has the client-to-destination loop stopped or either
stream closed, so no bound on scheduling steps can exist. -/
theorem claim1_counterexample :
    ¬ ∃ s, Reach sysSilent s ∧
      (s.cd.stopped = true ∨ s.destClosed = true ∨ s.clientClosed = true) := by
  rintro ⟨s, hr, hbad⟩
  have hmem := reach_invariant
    [sysSilent, ⟨.running [], .done, false, false⟩] sysSilent
    (by decide) (by decide) s hr
  simp only [List.mem_cons, List.not_mem_nil, or_false] at hmem
  rcases hmem with rfl | rfl
  · rcases hbad with hb | hb | hb <;> exact absurd hb (by decide)
  · rcases hbad with hb | hb | hb <;> exact absurd hb (by decide)

/-- Claim C1 amended: only a copy loop that ends by RAISING cancels its
sibling — then even a blocked read is aborted and both streams get
closed; the relay also finishes once both loops reach end-of-stream on
their own.  But a loop ending by CLEAN end-of-stream cancels nothing:
with the destination closed and the client silent but open, every
reachable state still has the client-to-destination loop unstopped and
both streams open, however many scheduling steps are taken. -/
theorem claim1_theorem :
    (∃ s, Reach sysDestErr s ∧ s.cd = .cancelled ∧
      s.destClosed = true ∧ s.clientClosed = true) ∧
    (∃ s, Reach sysBothEnd s ∧ s.cd = .done ∧ s.dc = .done ∧
      s.destClosed = true ∧ s.clientClosed = true) ∧
    (∀ s, Reach sysSilent s →
      s.cd.stopped = false ∧ s.destClosed = false ∧ s.clientClosed = false) := by
  refine ⟨?_, ?_, ?_⟩
  · refine ⟨⟨.cancelled, .raised, true, true⟩, ?_, rfl, rfl, rfl⟩
    have h1 : Step sysDestErr ⟨.running [], .raised, false, false⟩ := by decide
    have h2 : Step (⟨.running [], .raised, false, false⟩ : Sys)
        ⟨.cancelled, .raised, false, false⟩ := by decide
    have h3 : Step (⟨.cancelled, .raised, false, false⟩ : Sys)
        ⟨.cancelled, .raised, true, true⟩ := by decide
    exact Relation.ReflTransGen.head h1 (Relation.ReflTransGen.head h2
      (Relation.ReflTransGen.head h3 Relation.ReflTransGen.refl))
  · refine ⟨⟨.done, .done, true, true⟩, ?_, rfl, rfl, rfl, rfl⟩
    have h1 : Step sysBothEnd ⟨.running [RdRes.eof], .running [RdRes.eof], false, false⟩ := by
      decide
    have h2 : Step (⟨.running [RdRes.eof], .running [RdRes.eof], false, false⟩ : Sys)
        ⟨.done, .running [RdRes.eof], false, false⟩ := by decide
    have h3 : Step (⟨.done, .running [RdRes.eof], false, false⟩ : Sys)
        ⟨.done, .done, false, false⟩ := by decide
    have h4 : Step (⟨.done, .done, false, false⟩ : Sys)
        ⟨.done, .done, true, true⟩ := by decide
    exact Relation.ReflTransGen.head h1 (Relation.ReflTransGen.head h2
      (Relation.ReflTransGen.head h3 (Relation.ReflTransGen.head h4
        Relation.ReflTransGen.refl)))
  · intro s hr
    have hmem := reach_invariant
      [sysSilent, ⟨.running [], .done, false, false⟩] sysSilent
      (by decide) (by decide) s hr
    simp only [List.mem_cons, List.not_mem_nil, or_false] at hmem
    rcases hmem with rfl | rfl
    · exact ⟨rfl, rfl, rfl⟩
    · exact ⟨rfl, rfl, rfl⟩
